import Mathlib

/-!
Verification of `src/bin/hyperdrive-vis-gen-diff.rs`: a utility that compares
each `hyperdrive_band??.bin` file in the working directory against the
same-named file in a baseline directory, computing the maximum absolute
elementwise difference between the little-endian 32-bit float contents, and
failing when that maximum exceeds a tolerance.

32-bit floats are embedded as their IEEE-754 binary32 bit patterns
(natural numbers below 2^32).  A finite pattern denotes the exact value
`fval x * 2 ^ (-149)`; subtraction is exact integer subtraction of those
scaled values followed by round-to-nearest-even back into the binary32
format, which is exactly the hardware behaviour the Rust code relies on.
-/

namespace HyperdriveVisGenDiff

/-! ## The binary32 bit-pattern model -/

/-- Sign bit of a binary32 bit pattern (`true` means negative). -/
def sgn (x : Nat) : Bool := x / 2 ^ 31 % 2 == 1

/-- Exponent field (8 bits) of a binary32 bit pattern. -/
def expf (x : Nat) : Nat := x / 2 ^ 23 % 256

/-- Fraction field (23 bits) of a binary32 bit pattern. -/
def frac (x : Nat) : Nat := x % 2 ^ 23

/-- Whether the pattern denotes a NaN (maximal exponent, nonzero fraction). -/
def isNan (x : Nat) : Bool := expf x == 255 && !(frac x == 0)

/-- Whether the pattern denotes an infinity (maximal exponent, zero fraction). -/
def isInf (x : Nat) : Bool := expf x == 255 && frac x == 0

/-- Magnitude of a finite binary32 pattern, in units of `2 ^ (-149)`. -/
def fmag (x : Nat) : Nat :=
  if expf x == 0 then frac x else (2 ^ 23 + frac x) * 2 ^ (expf x - 1)

/-- Signed value of a finite binary32 pattern, in units of `2 ^ (-149)`. -/
def fval (x : Nat) : Int :=
  (if sgn x then -1 else 1) * (fmag x : Int)

/-- Order key of a non-NaN binary32 pattern: finite patterns map to their
scaled value, infinities to `± 2 ^ 300`, which lies strictly beyond every
finite magnitude (those are below `2 ^ 278`).  Two non-NaN patterns compare
(IEEE-wise) exactly as their keys do; `+0.0` and `-0.0` share the key `0`. -/
def f32_key (x : Nat) : Int :=
  if isInf x then (if sgn x then -(2 ^ 300) else 2 ^ 300) else fval x

/-- IEEE-754 `<` on binary32 patterns: false when either side is NaN. -/
def f32_lt (a b : Nat) : Bool :=
  !(isNan a || isNan b) && decide (f32_key a < f32_key b)

/-- IEEE-754 `>` on binary32 patterns, the comparison the Rust code uses. -/
def f32_gt (a b : Nat) : Bool := f32_lt b a

/-- IEEE-754 `≤` on binary32 patterns: false when either side is NaN. -/
def f32_le (a b : Nat) : Bool :=
  !(isNan a || isNan b) && decide (f32_key a ≤ f32_key b)

/-- IEEE-754 `≥` on binary32 patterns. -/
def f32_ge (a b : Nat) : Bool := f32_le b a

/-- Rust `f32::abs`: clear the sign bit of the pattern. -/
def f32_abs (x : Nat) : Nat := x % 2 ^ 31

/-- Flip the sign bit of a (well-formed, below `2 ^ 32`) pattern. -/
def f32_neg (x : Nat) : Nat := if sgn x then x - 2 ^ 31 else x + 2 ^ 31

/-- The quiet-NaN pattern produced for invalid operations. -/
def qnan : Nat := 0x7FC00000

/-- Number of low bits that must be rounded away so that a positive integer
significand `D` fits in 24 bits: `f32_shift D = max 0 (bitlength D - 24)`
whenever `D < 2 ^ 324`.  (Counting over `List.range` keeps the definition
structurally recursive, so that the kernel can evaluate it.) -/
def f32_shift (D : Nat) : Nat :=
  ((List.range 300).filter (fun s => 2 ^ 24 ≤ D / 2 ^ s)).length

/-- Round a positive scaled integer `D` (the exact result in units of
`2 ^ (-149)`) to the nearest binary32 pattern, ties to even, overflowing to
`+∞`.  A value below `2 ^ 24` is exactly representable and its pattern is
numerically equal to `D` itself; otherwise the significand is rounded to 24
bits and reassembled, clamping at the infinity pattern. -/
def roundPos (D : Nat) : Nat :=
  if D < 2 ^ 24 then D
  else
    let shift := f32_shift D
    let q := D / 2 ^ shift
    let r := D % 2 ^ shift
    let half := 2 ^ (shift - 1)
    let m := if half < r then q + 1 else if r < half then q else
      if q % 2 == 0 then q else q + 1
    let p := shift * 2 ^ 23 + m
    if p < 0x7F800000 then p else 0x7F800000

/-- IEEE-754 binary32 subtraction on bit patterns (round-to-nearest-even),
the operation performed by `p - d` on `f32` in the Rust fold. -/
def f32_sub (a b : Nat) : Nat :=
  if isNan a || isNan b then qnan
  else if isInf a && isInf b then (if sgn a == sgn b then qnan else a)
  else if isInf a then a
  else if isInf b then f32_neg b
  else
    let D : Int := fval a - fval b
    if D = 0 then (if sgn a && !(sgn b) then 2 ^ 31 else 0)
    else if 0 < D then roundPos D.toNat
    else 2 ^ 31 + roundPos (-D).toNat

/-! ## Error messages

The Rust code formats paths with `{:?}`; the model interpolates the plain
path string into otherwise identical messages. -/

/-- Error for a directory that does not exist (`main`, first check). -/
def dirMsg (d : String) : String :=
  "Directory " ++ (d ++ " does not exist! This should contain baseline hyperdrive binary files.")

/-- Error for a byte count that is not a multiple of four (`read_f32s`). -/
def invalidMsg (path : String) : String :=
  "An invalid number of bytes were read from " ++ (path ++ ". Does this file contain really floats?")

/-- Error for a file that decoded to no floats. -/
def emptyMsg (path : String) : String :=
  path ++ " did not contain any data"

/-- Error for a present file missing from the baseline directory. -/
def missingMsg (p baseline_str : String) : String :=
  p ++ (" is missing from " ++ (baseline_str ++ "!"))

/-- Error for a pair of files with different numbers of floats. -/
def mismatchMsg (p b : String) : String :=
  "bail: " ++ (p ++ (" and " ++ (b ++ " have different amounts of data")))

/-- Error for a file that could not be opened (the `?` on `File::open`). -/
def openFailMsg (path : String) : String :=
  "No such file or directory: " ++ path

/-- Error when the working directory has no matching files. -/
def noFilesMsg : String := "PWD does not have any hyperdrive_band??.bin files!"

/-! ## The program -/

/-- Decode a byte sequence into binary32 bit patterns, four little-endian
bytes per value, as `LittleEndian::read_f32_into` fills the target buffer
(of length `bytes.len() / 4`). -/
def decode_f32s : List Nat → List Nat
  | b0 :: b1 :: b2 :: b3 :: rest =>
    (b0 + 256 * (b1 + 256 * (b2 + 256 * b3))) :: decode_f32s rest
  | _ => []

/-- The function `read_f32s`: read a file as little-endian 32-bit floats, failing when the
byte count is not a multiple of four.  The Rust code allocates
`bytes.len() / 4` floats and bails when `4 * data.len() != bytes.len()`. -/
def read_f32s (path : String) (bytes : List Nat) : Except String (List Nat) :=
  if 4 * (bytes.length / 4) ≠ bytes.length then .error (invalidMsg path)
  else .ok (decode_f32s bytes)

/-- The encoding direction of the band-file format, from the spec: a raw
binary blob of 32-bit floats, little-endian, four bytes per value, no header
or metadata.  (The repository contains only the decoder; this is the inverse
construction the round-trip property quantifies over.) -/
def encode_f32s (xs : List Nat) : List Nat :=
  xs.flatMap (fun x => [x % 256, x / 256 % 256, x / 2 ^ 16 % 256, x / 2 ^ 24 % 256])

/-- Whether a file name matches the glob pattern `hyperdrive_band??.bin`:
the 15-character literal prefix, any two characters, then `.bin`. -/
def matchesBand (name : String) : Bool :=
  name.data.length == 21 &&
    (name.data.take 15 == "hyperdrive_band".data &&
      name.data.drop 17 == ".bin".data)

/-- The function `glob_files`: enumerate the files of a directory that match the
`hyperdrive_band??.bin` pattern, keeping only the file names (the Rust
function maps every globbed path to its `file_name`).  A directory is
modelled as an association list from file name to byte contents. -/
def glob_files (dir : List (String × List Nat)) : List String :=
  (dir.filter (fun f => matchesBand f.fst)).map (fun f => f.fst)

/-- The per-file comparison: fold over the zipped float sequences, keeping
the largest `(p - d).abs()` seen so far, starting from `0.0`. -/
def biggest_diff (p_data b_data : List Nat) : Nat :=
  (p_data.zip b_data).foldl
    (fun acc pd =>
      let diff := f32_abs (f32_sub pd.1 pd.2)
      if f32_gt diff acc then diff else acc)
    0

/-- The elementwise absolute differences `|A[i] - B[i]|` of two sequences,
used to state what `biggest_diff` computes. -/
def diffsList (p_data b_data : List Nat) : List Nat :=
  (p_data.zip b_data).map (fun pd => f32_abs (f32_sub pd.1 pd.2))

/-- The fold `maxfold l` is what the Rust comparison performs over a list of
already-computed differences: start at `0.0` and replace the accumulator
whenever an element compares strictly greater. -/
def maxfold (l : List Nat) : Nat :=
  l.foldl (fun acc d => if f32_gt d acc then d else acc) 0

/-- The update step of the maximum fold, written out as a function: keep the
accumulator unless the new difference compares strictly greater. -/
def step (acc d : Nat) : Nat := if f32_gt d acc then d else acc

/-- Predicate: `r` is the maximum of the list `l` of binary32 patterns: a member of `l`
that every element is IEEE-`≤` to. -/
def IsMaxDiff (r : Nat) (l : List Nat) : Prop :=
  r ∈ l ∧ ∀ d ∈ l, f32_le d r = true

/-- The per-pair loop of `main`: for each present file name, open and decode
it, check it is non-empty, open and decode the baseline counterpart, check
it is non-empty and of equal length, compute `biggest_diff`, and update the
running maximum with `map_or`.  Any failure stops the loop immediately. -/
def processFiles (cwd base : List (String × List Nat)) (baseline_str : String) :
    List String → Option Nat → Except String (Option Nat)
  | [], max_diff => .ok max_diff
  | p :: rest, max_diff =>
    match List.lookup p cwd with
    | none => .error (openFailMsg p)
    | some bytes =>
      match read_f32s p bytes with
      | .error e => .error e
      | .ok p_data =>
        if p_data.isEmpty then .error (emptyMsg p)
        else
          match List.lookup p base with
          | none => .error (openFailMsg (baseline_str ++ ("/" ++ p)))
          | some b_bytes =>
            match read_f32s (baseline_str ++ ("/" ++ p)) b_bytes with
            | .error e => .error e
            | .ok b_data =>
              if b_data.isEmpty then .error (emptyMsg (baseline_str ++ ("/" ++ p)))
              else if p_data.length ≠ b_data.length then
                .error (mismatchMsg p (baseline_str ++ ("/" ++ p)))
              else
                processFiles cwd base baseline_str rest
                  (some (match max_diff with
                         | none => biggest_diff p_data b_data
                         | some m =>
                           if f32_gt (biggest_diff p_data b_data) m then
                             biggest_diff p_data b_data
                           else m))

/-- The per-file difference of a present file, as recomputed from the two
directories; `processFiles` produces exactly these values on success. -/
def fileDiff (cwd base : List (String × List Nat)) (p : String) : Nat :=
  biggest_diff (decode_f32s ((List.lookup p cwd).getD []))
    (decode_f32s ((List.lookup p base).getD []))

/-- The command-line options of the binary (`structopt`-derived `Opt`).
The tolerance is a binary32 bit pattern, default `0.001`. -/
structure Opt where
  baseline_dir : String
  tolerance : Nat
  quiet : Bool

/-- The parts of the file system the program observes: whether the baseline
directory exists, and the contents (file name to bytes) of the working and
baseline directories. -/
structure World where
  baselineDirExists : Bool
  cwdFiles : List (String × List Nat)
  baselineFiles : List (String × List Nat)

/-- Observable result of a run: an `anyhow` error return (nonzero exit), a
panic, an explicit `std::process::exit` with the given code, or the normal
`Ok(())` return (exit code 0). -/
inductive Outcome
  | error (msg : String)
  | panicked (msg : String)
  | exit (code : Int)
  | exitOk
deriving DecidableEq

/-- Whether an outcome is a panic. -/
def Outcome.isPanic : Outcome → Bool
  | .panicked _ => true
  | _ => false

/-- The whole of `main`: check the baseline directory exists, glob the
present files and fail when there are none, fail when some present file is
missing from the baseline glob, run the comparison loop, `expect` the
accumulated maximum, and exit with `-1` when it exceeds the tolerance. -/
def main (options : Opt) (w : World) : Outcome :=
  if !w.baselineDirExists then .error (dirMsg options.baseline_dir)
  else
    let baseline_str := options.baseline_dir
    let present_files := glob_files w.cwdFiles
    if present_files.isEmpty then .error noFilesMsg
    else
      let baseline_files := glob_files w.baselineFiles
      match present_files.find? (fun p => !(baseline_files.contains p)) with
      | some p => .error (missingMsg p baseline_str)
      | none =>
        match processFiles w.cwdFiles w.baselineFiles baseline_str present_files none with
        | .error e => .error e
        | .ok none => .panicked ("max_diff never got set!")
        | .ok (some max_diff) =>
          if f32_gt max_diff options.tolerance then .exit (-1) else .exitOk

/-! ## Facts about the pattern model -/

theorem sgn_eq_false_of_lt {d : Nat} (h : d < 2 ^ 31) : sgn d = false := by
  have h' : d < 2147483648 := by norm_num at h; exact h
  simp [sgn]
  omega

theorem f32_key_nonneg {d : Nat} (h : d < 2 ^ 31) : 0 ≤ f32_key d := by
  have hs := sgn_eq_false_of_lt h
  unfold f32_key fval
  split
  · rw [hs]
    norm_num
  · rw [hs]
    simp

theorem f32_key_zero : f32_key 0 = 0 := by decide

theorem eq_zero_of_f32_key_eq_zero {d : Nat} (h2 : d < 2 ^ 31) (h3 : f32_key d = 0) :
    d = 0 := by
  have hs := sgn_eq_false_of_lt h2
  unfold f32_key at h3
  by_cases hinf : isInf d = true
  · rw [hinf, if_pos rfl, hs] at h3
    norm_num at h3
  · rw [if_neg hinf] at h3
    unfold fval at h3
    rw [hs] at h3
    simp only [Bool.false_eq_true, if_false, one_mul, Int.natCast_eq_zero] at h3
    unfold fmag at h3
    split at h3
    · next he =>
      have he' : expf d = 0 := by simpa using he
      have e23 : (2 : Nat) ^ 23 = 8388608 := by norm_num
      have e31 : (2 : Nat) ^ 31 = 2147483648 := by norm_num
      unfold expf at he'
      unfold frac at h3
      rw [e23] at he' h3
      rw [e31] at h2
      omega
    · next he =>
      rcases Nat.mul_eq_zero.mp h3 with h | h
      · have e23 : (2 : Nat) ^ 23 = 8388608 := by norm_num
        rw [e23] at h
        omega
      · exact absurd h (by positivity)

theorem f32_lt_iff {a b : Nat} (ha : isNan a = false) (hb : isNan b = false) :
    f32_lt a b = true ↔ f32_key a < f32_key b := by
  simp [f32_lt, ha, hb]

theorem f32_le_iff {a b : Nat} (ha : isNan a = false) (hb : isNan b = false) :
    f32_le a b = true ↔ f32_key a ≤ f32_key b := by
  simp [f32_le, ha, hb]

theorem f32_gt_true_elim {a b : Nat} (h : f32_gt a b = true) :
    isNan a = false ∧ isNan b = false ∧ f32_key b < f32_key a := by
  simp only [f32_gt, f32_lt, Bool.and_eq_true, Bool.not_eq_true', Bool.or_eq_false_iff,
    decide_eq_true_eq] at h
  exact ⟨h.1.2, h.1.1, h.2⟩

theorem f32_gt_false_elim {a b : Nat} (ha : isNan a = false) (hb : isNan b = false)
    (h : f32_gt a b = false) : f32_key a ≤ f32_key b := by
  simp only [f32_gt, f32_lt, ha, hb, Bool.or_self, Bool.not_false, Bool.true_and,
    decide_eq_false_iff_not] at h
  exact Int.not_lt.mp h

/-! ## The maximum fold -/

theorem foldl_step_spec (l : List Nat) :
    ∀ acc : Nat, isNan acc = false →
      isNan (l.foldl step acc) = false ∧
      (l.foldl step acc = acc ∨ l.foldl step acc ∈ l) ∧
      f32_key acc ≤ f32_key (l.foldl step acc) ∧
      ∀ d ∈ l, isNan d = false → f32_key d ≤ f32_key (l.foldl step acc) := by
  induction l with
  | nil =>
    intro acc h
    simpa using h
  | cons x xs ih =>
    intro acc h
    simp only [List.foldl_cons]
    by_cases hx : f32_gt x acc = true
    · obtain ⟨hxnan, -, hlt⟩ := f32_gt_true_elim hx
      have hstep : step acc x = x := by simp [step, hx]
      rw [hstep]
      obtain ⟨h1, h2, h3, h4⟩ := ih x hxnan
      refine ⟨h1, ?_, ?_, ?_⟩
      · rcases h2 with h2 | h2
        · exact Or.inr (by rw [h2]; exact List.mem_cons_self x xs)
        · exact Or.inr (List.mem_cons_of_mem x h2)
      · exact le_of_lt (lt_of_lt_of_le hlt h3)
      · intro d hd hdn
        rcases List.mem_cons.mp hd with rfl | hd
        · exact h3
        · exact h4 d hd hdn
    · have hx' : f32_gt x acc = false := Bool.eq_false_iff.mpr hx
      have hstep : step acc x = acc := by simp [step, hx']
      rw [hstep]
      obtain ⟨h1, h2, h3, h4⟩ := ih acc h
      refine ⟨h1, ?_, h3, ?_⟩
      · rcases h2 with h2 | h2
        · exact Or.inl h2
        · exact Or.inr (List.mem_cons_of_mem x h2)
      · intro d hd hdn
        rcases List.mem_cons.mp hd with rfl | hd
        · exact le_trans (f32_gt_false_elim hdn h hx') h3
        · exact h4 d hd hdn

theorem foldl_step_filter (l : List Nat) :
    ∀ acc : Nat, l.foldl step acc = (l.filter (fun d => !(isNan d))).foldl step acc := by
  induction l with
  | nil => intro acc; rfl
  | cons x xs ih =>
    intro acc
    by_cases hx : isNan x = true
    · have hstep : step acc x = acc := by
        simp [step, f32_gt, f32_lt, hx]
      simp only [List.foldl_cons, hstep, List.filter_cons, hx]
      simpa using ih acc
    · have hx' : isNan x = false := Bool.eq_false_iff.mpr hx
      simp only [List.foldl_cons, List.filter_cons, hx', Bool.not_false, if_pos]
      exact ih (step acc x)

theorem maxfold_eq_foldl_step (l : List Nat) : maxfold l = l.foldl step 0 := rfl

theorem biggest_diff_eq (A B : List Nat) : biggest_diff A B = maxfold (diffsList A B) := by
  simp [biggest_diff, maxfold, diffsList, List.foldl_map]

theorem diffsList_mem_lt {A B : List Nat} {d : Nat} (hd : d ∈ diffsList A B) :
    d < 2 ^ 31 := by
  obtain ⟨pd, -, rfl⟩ := List.mem_map.mp hd
  exact Nat.mod_lt _ (by norm_num)

theorem biggest_diff_mem_or (A B : List Nat) :
    biggest_diff A B = 0 ∨ biggest_diff A B ∈ diffsList A B := by
  rw [biggest_diff_eq, maxfold_eq_foldl_step]
  exact (foldl_step_spec (diffsList A B) 0 (by decide)).2.1

theorem biggest_diff_not_nan (A B : List Nat) : isNan (biggest_diff A B) = false := by
  rw [biggest_diff_eq, maxfold_eq_foldl_step]
  exact (foldl_step_spec (diffsList A B) 0 (by decide)).1

theorem biggest_diff_lt (A B : List Nat) : biggest_diff A B < 2 ^ 31 := by
  rcases biggest_diff_mem_or A B with h | h
  · rw [h]
    norm_num
  · exact diffsList_mem_lt h

/-! ## Subtracting a value from itself -/

theorem f32_sub_self (x : Nat) : f32_sub x x = 0 ∨ f32_sub x x = qnan := by
  unfold f32_sub
  by_cases hn : isNan x = true
  · simp [hn]
  · have hn' : isNan x = false := Bool.eq_false_iff.mpr hn
    by_cases hi : isInf x = true
    · simp [hn', hi]
    · have hi' : isInf x = false := Bool.eq_false_iff.mpr hi
      simp [hn', hi']

theorem zip_self (A : List Nat) : A.zip A = A.map (fun x => (x, x)) := by
  induction A with
  | nil => rfl
  | cons a A ih => simp [ih]

theorem diffsList_self_mem {A : List Nat} {d : Nat} (hd : d ∈ diffsList A A) :
    d = 0 ∨ d = qnan := by
  unfold diffsList at hd
  rw [zip_self, List.map_map] at hd
  obtain ⟨x, -, rfl⟩ := List.mem_map.mp hd
  rcases f32_sub_self x with h | h
  · left
    simp [Function.comp, h]
    rfl
  · right
    simp [Function.comp, h]
    decide

theorem foldl_step_diag (l : List Nat) (hl : ∀ d ∈ l, d = 0 ∨ d = qnan) :
    l.foldl step 0 = 0 := by
  induction l with
  | nil => rfl
  | cons x xs ih =>
    have hx := hl x (List.mem_cons_self x xs)
    have hstep : step 0 x = 0 := by rcases hx with rfl | rfl <;> decide
    rw [List.foldl_cons, hstep]
    exact ih (fun d hd => hl d (List.mem_cons_of_mem x hd))

/-! ## Claim C1 -/

/-- Claim C1 is false as stated: at `A = B = [+∞]` the only elementwise
difference `|A[0] - B[0]|` is NaN (`∞ - ∞` is invalid), while the fold
computes `0.0`, so the computed value is not the maximum over all indices of
`|A[i] - B[i]|` — the maximum over the single index `0` would be that NaN
difference, which the fold silently ignores. -/
theorem C1_counterexample :
    diffsList [0x7F800000] [0x7F800000] = [qnan] ∧
    isNan qnan = true ∧
    biggest_diff [0x7F800000] [0x7F800000] = 0 ∧
    (0 : Nat) ≠ qnan := by
  exact ⟨by decide, by decide, by decide, by decide⟩

/-- Claim C1, amended: for every pair of equal-length 32-bit float sequences
`A` and `B`, if no elementwise difference `|A[i] - B[i]|` is NaN and there is
at least one index, the per-file comparison computes exactly the maximum over
all indices of `|A[i] - B[i]|` (a member of the list of differences that
every difference is IEEE-`≤` to); and whenever `A` equals `B` exactly the
computed value is `0.0` (this part holds even when entries are NaN or
infinite, whose self-differences are NaN and are ignored by the fold). -/
theorem C1_biggest_diff_is_max (A B : List Nat) (hlen : A.length = B.length) :
    ((∀ d ∈ diffsList A B, isNan d = false) → diffsList A B ≠ [] →
      IsMaxDiff (biggest_diff A B) (diffsList A B)) ∧
    (A = B → biggest_diff A B = 0) := by
  constructor
  · intro hnn hne
    obtain ⟨h1, h2, h3, h4⟩ := foldl_step_spec (diffsList A B) 0 (by decide)
    rw [biggest_diff_eq, maxfold_eq_foldl_step]
    refine ⟨?_, ?_⟩
    · rcases h2 with h2 | h2
      · rw [h2]
        obtain ⟨d0, hd0⟩ := List.exists_mem_of_ne_nil (diffsList A B) hne
        have hk := h4 d0 hd0 (hnn d0 hd0)
        rw [h2, f32_key_zero] at hk
        have hk0 := f32_key_nonneg (diffsList_mem_lt hd0)
        have hd0z : d0 = 0 :=
          eq_zero_of_f32_key_eq_zero (diffsList_mem_lt hd0) (le_antisymm hk hk0)
        rwa [← hd0z]
      · exact h2
    · intro d hd
      rw [f32_le_iff (hnn d hd) h1]
      exact h4 d hd (hnn d hd)
  · rintro rfl
    rw [biggest_diff_eq, maxfold_eq_foldl_step]
    exact foldl_step_diag _ (fun d hd => diffsList_self_mem hd)

/-- Witness for the amended C1: at `A = B = [1.0, 2.0]` the computed value
is the maximum of the differences and equals `0.0`. -/
theorem C1_witness :
    IsMaxDiff (biggest_diff [0x3F800000, 0x40000000] [0x3F800000, 0x40000000])
      (diffsList [0x3F800000, 0x40000000] [0x3F800000, 0x40000000]) ∧
    biggest_diff [0x3F800000, 0x40000000] [0x3F800000, 0x40000000] = 0 := by
  have h := C1_biggest_diff_is_max [0x3F800000, 0x40000000] [0x3F800000, 0x40000000] rfl
  exact ⟨h.1 (by decide) (by decide), h.2 rfl⟩

/-! ## Claim C10 -/

/-- Claim C10: for every pair of float sequences, the per-file maximum
difference computed by the fold is never NaN and is IEEE-`≥ 0.0`; an index
whose difference is NaN never updates the accumulator, so the fold equals
the same fold over only the non-NaN differences. -/
theorem C10_biggest_diff_never_nan (A B : List Nat) :
    isNan (biggest_diff A B) = false ∧
    f32_ge (biggest_diff A B) 0 = true ∧
    biggest_diff A B = maxfold ((diffsList A B).filter (fun d => !(isNan d))) := by
  refine ⟨biggest_diff_not_nan A B, ?_, ?_⟩
  · have hnan := biggest_diff_not_nan A B
    have hkey := f32_key_nonneg (biggest_diff_lt A B)
    unfold f32_ge
    rw [f32_le_iff (by decide) hnan, f32_key_zero]
    exact hkey
  · rw [biggest_diff_eq, maxfold_eq_foldl_step, maxfold_eq_foldl_step]
    exact foldl_step_filter (diffsList A B) 0

/-! ## Claim C4: the band-file format round-trips -/

theorem decode_f32s_length_aux :
    ∀ (n : Nat) (bytes : List Nat), bytes.length ≤ n →
      (decode_f32s bytes).length = bytes.length / 4 := by
  intro n
  induction n with
  | zero =>
    intro bytes h
    have hb : bytes = [] := List.eq_nil_of_length_eq_zero (Nat.le_zero.mp h)
    subst hb
    rfl
  | succ n ih =>
    intro bytes h
    rcases bytes with _ | ⟨b0, _ | ⟨b1, _ | ⟨b2, _ | ⟨b3, rest⟩⟩⟩⟩
    · rfl
    · simp [decode_f32s]
    · simp [decode_f32s]
    · simp [decode_f32s]
    · have hr : rest.length ≤ n := by simp at h; omega
      have hrec := ih rest hr
      simp [decode_f32s, hrec]
      omega

theorem decode_f32s_length (bytes : List Nat) :
    (decode_f32s bytes).length = bytes.length / 4 :=
  decode_f32s_length_aux bytes.length bytes le_rfl

theorem encode_f32s_length (xs : List Nat) :
    (encode_f32s xs).length = 4 * xs.length := by
  induction xs with
  | nil => rfl
  | cons x xs ih =>
    simp only [encode_f32s] at ih ⊢
    rw [List.flatMap_cons, List.length_append, ih]
    simp
    omega

theorem decode_encode (xs : List Nat) (h : ∀ x ∈ xs, x < 2 ^ 32) :
    decode_f32s (encode_f32s xs) = xs := by
  induction xs with
  | nil => rfl
  | cons x xs ih =>
    have hx : x < 2 ^ 32 := h x (List.mem_cons_self x xs)
    have hxs := ih (fun y hy => h y (List.mem_cons_of_mem x hy))
    have hx' : x < 4294967296 := by norm_num at hx; exact hx
    have e16 : (2 : Nat) ^ 16 = 65536 := by norm_num
    have e24 : (2 : Nat) ^ 24 = 16777216 := by norm_num
    simp only [encode_f32s] at hxs ⊢
    simp only [List.flatMap_cons, List.cons_append, List.nil_append, decode_f32s,
      e16, e24, hxs]
    congr 1
    omega

/-- Claim C4: encoding a float sequence as little-endian bytes (four bytes per
value, no header or metadata) and decoding it with the file decoder
reproduces the original sequence exactly, bit for bit; and for any byte
sequence the decoded length is the byte count divided by four. -/
theorem C4_roundtrip (xs : List Nat) (path : String) (h : ∀ x ∈ xs, x < 2 ^ 32) :
    read_f32s path (encode_f32s xs) = .ok xs ∧
    (∀ bytes : List Nat, (decode_f32s bytes).length = bytes.length / 4) := by
  constructor
  · unfold read_f32s
    rw [if_neg (by rw [encode_f32s_length]; omega)]
    rw [decode_encode xs h]
  · exact decode_f32s_length

/-- Witness for C4 at the concrete sequence `[1.0, 0.0]`. -/
theorem C4_witness :
    read_f32s ("hyperdrive_band01.bin") (encode_f32s [0x3F800000, 0]) =
      .ok [0x3F800000, 0] ∧
    (decode_f32s (encode_f32s [0x3F800000, 0])).length =
      (encode_f32s [0x3F800000, 0]).length / 4 := by
  have h := C4_roundtrip [0x3F800000, 0] ("hyperdrive_band01.bin") (by decide)
  exact ⟨h.1, h.2 (encode_f32s [0x3F800000, 0])⟩

/-! ## The comparison loop -/

theorem read_f32s_ok_elim {path : String} {bytes data : List Nat}
    (h : read_f32s path bytes = .ok data) : data = decode_f32s bytes := by
  unfold read_f32s at h
  split at h
  · exact absurd h (by simp)
  · injection h with h
    exact h.symm

theorem read_f32s_ok {path : String} {bytes : List Nat} (h : bytes.length % 4 = 0) :
    read_f32s path bytes = .ok (decode_f32s bytes) := by
  unfold read_f32s
  rw [if_neg (by omega)]

theorem decode_f32s_ne_nil {bytes : List Nat} (h4 : bytes.length % 4 = 0)
    (hne : bytes ≠ []) : decode_f32s bytes ≠ [] := by
  intro hnil
  have hplen := decode_f32s_length bytes
  rw [hnil] at hplen
  have hlen0 : bytes.length ≠ 0 := fun h0 => hne (List.eq_nil_of_length_eq_zero h0)
  simp at hplen
  omega

/-- Whenever processing the head of the file list succeeds starting from an
empty accumulator, the loop continued with that file's difference. -/
theorem processFiles_cons_ok_none (cwd base : List (String × List Nat)) (bstr p : String)
    (rest : List String) (r : Option Nat)
    (h : processFiles cwd base bstr (p :: rest) none = .ok r) :
    processFiles cwd base bstr rest (some (fileDiff cwd base p)) = .ok r := by
  simp only [processFiles] at h
  split at h
  · exact absurd h (by simp)
  next bytes hlk =>
    split at h
    next e hrp => exact absurd h (by simp)
    next p_data hrp =>
      split at h
      · exact absurd h (by simp)
      next hpe =>
        split at h
        · exact absurd h (by simp)
        next b_bytes hlkb =>
          split at h
          next e hrb => exact absurd h (by simp)
          next b_data hrb =>
            split at h
            · exact absurd h (by simp)
            next hbe =>
              split at h
              · exact absurd h (by simp)
              next hlen =>
                have hfd : fileDiff cwd base p = biggest_diff p_data b_data := by
                  unfold fileDiff
                  rw [hlk, hlkb]
                  simp only [Option.getD_some]
                  rw [← read_f32s_ok_elim hrp, ← read_f32s_ok_elim hrb]
                rw [hfd]
                exact h

/-- Whenever processing the head of the file list succeeds starting from an
already-set accumulator, the loop continued with the larger of the
accumulator and that file's difference. -/
theorem processFiles_cons_ok_some (cwd base : List (String × List Nat)) (bstr p : String)
    (rest : List String) (v : Nat) (r : Option Nat)
    (h : processFiles cwd base bstr (p :: rest) (some v) = .ok r) :
    processFiles cwd base bstr rest
      (some (if f32_gt (fileDiff cwd base p) v then fileDiff cwd base p else v)) =
      .ok r := by
  simp only [processFiles] at h
  split at h
  · exact absurd h (by simp)
  next bytes hlk =>
    split at h
    next e hrp => exact absurd h (by simp)
    next p_data hrp =>
      split at h
      · exact absurd h (by simp)
      next hpe =>
        split at h
        · exact absurd h (by simp)
        next b_bytes hlkb =>
          split at h
          next e hrb => exact absurd h (by simp)
          next b_data hrb =>
            split at h
            · exact absurd h (by simp)
            next hbe =>
              split at h
              · exact absurd h (by simp)
              next hlen =>
                have hfd : fileDiff cwd base p = biggest_diff p_data b_data := by
                  unfold fileDiff
                  rw [hlk, hlkb]
                  simp only [Option.getD_some]
                  rw [← read_f32s_ok_elim hrp, ← read_f32s_ok_elim hrb]
                rw [hfd]
                exact h

/-! ## Claim C5 -/

/-- Claim C5: in the (strict) comparison loop, each structural anomaly on a
file pair — a byte count that is not a multiple of four, an empty decoded
buffer, or mismatched buffer lengths between present and baseline — is a
hard, immediate failure whose message names the offending file path, and no
further file pair is processed (the result does not depend on the remaining
file list); in particular a present file of byte length 5 fails with the
"invalid number of bytes" error. -/
theorem C5_strict_anomalies (cwd base : List (String × List Nat)) (bstr p : String)
    (bytes : List Nat) (rest : List String) (acc : Option Nat)
    (hlk : List.lookup p cwd = some bytes) :
    (bytes.length % 4 ≠ 0 →
      processFiles cwd base bstr (p :: rest) acc = .error (invalidMsg p)) ∧
    (bytes = [] →
      processFiles cwd base bstr (p :: rest) acc = .error (emptyMsg p)) ∧
    (bytes.length = 5 →
      processFiles cwd base bstr (p :: rest) acc = .error (invalidMsg p)) ∧
    (∀ b_bytes : List Nat, List.lookup p base = some b_bytes →
      bytes.length % 4 = 0 → bytes ≠ [] →
      b_bytes.length % 4 = 0 → b_bytes ≠ [] →
      (decode_f32s bytes).length ≠ (decode_f32s b_bytes).length →
      processFiles cwd base bstr (p :: rest) acc =
        .error (mismatchMsg p (bstr ++ ("/" ++ p)))) ∧
    (∃ s t : String, invalidMsg p = s ++ (p ++ t)) ∧
    (∃ s : String, emptyMsg p = p ++ s) ∧
    (∃ s t : String, mismatchMsg p (bstr ++ ("/" ++ p)) = s ++ ((bstr ++ ("/" ++ p)) ++ t)) := by
  have hinv : bytes.length % 4 ≠ 0 →
      processFiles cwd base bstr (p :: rest) acc = .error (invalidMsg p) := by
    intro hmod
    simp only [processFiles, hlk]
    unfold read_f32s
    rw [if_pos (by omega)]
  refine ⟨hinv, ?_, fun h5 => hinv (by omega), ?_,
    ⟨"An invalid number of bytes were read from ",
      ". Does this file contain really floats?", rfl⟩,
    ⟨" did not contain any data", rfl⟩,
    ⟨"bail: " ++ (p ++ " and "), " have different amounts of data", ?_⟩⟩
  · rintro rfl
    simp only [processFiles, hlk]
    rfl
  · intro b_bytes hlkb hmod hne hbmod hbne hlen
    have hpe : (decode_f32s bytes).isEmpty = false := by
      rcases hdd : decode_f32s bytes with _ | ⟨a, l⟩
      · exact absurd hdd (decode_f32s_ne_nil hmod hne)
      · rfl
    have hbe : (decode_f32s b_bytes).isEmpty = false := by
      rcases hdd : decode_f32s b_bytes with _ | ⟨a, l⟩
      · exact absurd hdd (decode_f32s_ne_nil hbmod hbne)
      · rfl
    simp [processFiles, hlk, read_f32s_ok hmod, hlkb, read_f32s_ok hbmod,
      hpe, hbe, hlen]
  · simp only [mismatchMsg, String.append_assoc]

/-- Witness for C5: a present file of byte length 5 stops the loop with the
"invalid number of bytes" error. -/
theorem C5_witness :
    processFiles [("hyperdrive_band01.bin", [0, 0, 0, 0, 0])] [] ("./baseline")
      ["hyperdrive_band01.bin"] none = .error (invalidMsg ("hyperdrive_band01.bin")) ∧
    ([0, 0, 0, 0, 0] : List Nat).length = 5 := by
  have h := C5_strict_anomalies [("hyperdrive_band01.bin", [0, 0, 0, 0, 0])] []
    "./baseline" "hyperdrive_band01.bin" [0, 0, 0, 0, 0] [] none rfl
  exact ⟨h.2.2.1 rfl, rfl⟩

/-! ## The accumulator is set once the loop has run -/

theorem processFiles_some_isSome (cwd base : List (String × List Nat)) (bstr : String) :
    ∀ (l : List String) (v : Nat) (r : Option Nat),
      processFiles cwd base bstr l (some v) = .ok r → r.isSome := by
  intro l
  induction l with
  | nil =>
    intro v r h
    simp only [processFiles] at h
    injection h with h
    rw [← h]
    rfl
  | cons p rest ih =>
    intro v r h
    exact ih _ r (processFiles_cons_ok_some cwd base bstr p rest v r h)

theorem processFiles_cons_none_isSome (cwd base : List (String × List Nat))
    (bstr p : String) (rest : List String) (r : Option Nat)
    (h : processFiles cwd base bstr (p :: rest) none = .ok r) : r.isSome :=
  processFiles_some_isSome cwd base bstr rest _ r
    (processFiles_cons_ok_none cwd base bstr p rest r h)

/-! ## Claim C9 -/

/-- Claim C9: the `expect("max_diff never got set!")` panic after the loop is
unreachable — no run of `main` produces a panic outcome.  Control reaches
the `expect` only after the present-file list was checked to be non-empty,
so the loop body ran at least once and the accumulator is `Some`. -/
theorem C9_expect_unreachable (options : Opt) (w : World) :
    (main options w).isPanic = false := by
  simp only [main]
  split
  · rfl
  next hdir =>
    split
    · rfl
    next hpres =>
      split
      · rfl
      next hfind =>
        split
        · rfl
        next heq =>
          exfalso
          rcases hl : glob_files w.cwdFiles with _ | ⟨p, rest⟩
          · rw [hl] at hpres
            exact hpres rfl
          · rw [hl] at heq
            have hsome := processFiles_cons_none_isSome w.cwdFiles w.baselineFiles
              options.baseline_dir p rest none heq
            simp at hsome
        next m heq =>
          split
          · rfl
          · rfl

/-! ## The accumulated maximum across the processed files -/

theorem processFiles_max_some (cwd base : List (String × List Nat)) (bstr : String) :
    ∀ (l : List String) (v m : Nat),
      isNan v = false →
      processFiles cwd base bstr l (some v) = .ok (some m) →
      isNan m = false ∧
      (m = v ∨ m ∈ l.map (fileDiff cwd base)) ∧
      f32_key v ≤ f32_key m ∧
      ∀ d ∈ l.map (fileDiff cwd base), f32_key d ≤ f32_key m := by
  intro l
  induction l with
  | nil =>
    intro v m hv h
    simp only [processFiles] at h
    injection h with h
    injection h with h
    subst h
    exact ⟨hv, Or.inl rfl, le_refl _, by simp⟩
  | cons p rest ih =>
    intro v m hv h
    have h' := processFiles_cons_ok_some cwd base bstr p rest v (some m) h
    have hDnan : isNan (fileDiff cwd base p) = false := biggest_diff_not_nan _ _
    by_cases hgt : f32_gt (fileDiff cwd base p) v = true
    · rw [if_pos hgt] at h'
      obtain ⟨h1, h2, h3, h4⟩ := ih _ m hDnan h'
      obtain ⟨-, -, hkey⟩ := f32_gt_true_elim hgt
      refine ⟨h1, ?_, le_trans (le_of_lt hkey) h3, ?_⟩
      · rcases h2 with h2 | h2
        · exact Or.inr (by rw [List.map_cons, h2]; exact List.mem_cons_self _ _)
        · exact Or.inr (by rw [List.map_cons]; exact List.mem_cons_of_mem _ h2)
      · intro d hd
        rw [List.map_cons] at hd
        rcases List.mem_cons.mp hd with rfl | hd
        · exact h3
        · exact h4 d hd
    · have hgt' : f32_gt (fileDiff cwd base p) v = false := Bool.eq_false_iff.mpr hgt
      rw [if_neg (by rw [hgt']; simp)] at h'
      obtain ⟨h1, h2, h3, h4⟩ := ih v m hv h'
      refine ⟨h1, ?_, h3, ?_⟩
      · rcases h2 with h2 | h2
        · exact Or.inl h2
        · exact Or.inr (by rw [List.map_cons]; exact List.mem_cons_of_mem _ h2)
      · intro d hd
        rw [List.map_cons] at hd
        rcases List.mem_cons.mp hd with rfl | hd
        · exact le_trans (f32_gt_false_elim hDnan hv hgt') h3
        · exact h4 d hd

theorem processFiles_max_none (cwd base : List (String × List Nat)) (bstr : String)
    (l : List String) (m : Nat)
    (h : processFiles cwd base bstr l none = .ok (some m)) :
    isNan m = false ∧ m ∈ l.map (fileDiff cwd base) ∧
    ∀ d ∈ l.map (fileDiff cwd base), f32_key d ≤ f32_key m := by
  cases l with
  | nil =>
    simp only [processFiles] at h
    simp at h
  | cons p rest =>
    have h' := processFiles_cons_ok_none cwd base bstr p rest (some m) h
    obtain ⟨h1, h2, h3, h4⟩ := processFiles_max_some cwd base bstr rest
      (fileDiff cwd base p) m (biggest_diff_not_nan _ _) h'
    refine ⟨h1, ?_, ?_⟩
    · rcases h2 with h2 | h2
      · exact (by rw [List.map_cons, h2]; exact List.mem_cons_self _ _)
      · exact (by rw [List.map_cons]; exact List.mem_cons_of_mem _ h2)
    · intro d hd
      rw [List.map_cons] at hd
      rcases List.mem_cons.mp hd with rfl | hd
      · exact h3
      · exact h4 d hd

/-! ## Claim C3 -/

/-- Claim C3: for every run over a non-empty present set whose file pairs all
compare without error (the loop returns an accumulated value), the overall
maximum equals the maximum over all processed files of that file's per-file
maximum absolute difference: it is one of the per-file values and every
per-file value is IEEE-`≤` it. -/
theorem C3_overall_max (cwd base : List (String × List Nat)) (bstr : String)
    (names : List String) (m : Nat)
    (h : processFiles cwd base bstr names none = .ok (some m)) :
    IsMaxDiff m (names.map (fileDiff cwd base)) := by
  obtain ⟨h1, h2, h3⟩ := processFiles_max_none cwd base bstr names m h
  refine ⟨h2, ?_⟩
  intro d hd
  obtain ⟨p, hp, rfl⟩ := List.mem_map.mp hd
  have hdn : isNan (fileDiff cwd base p) = false := biggest_diff_not_nan _ _
  rw [f32_le_iff hdn h1]
  exact h3 _ hd

/-- Witness for C3 on a one-file run whose difference is `0.0`. -/
theorem C3_witness :
    IsMaxDiff 0 (["hyperdrive_band01.bin"].map
      (fileDiff [("hyperdrive_band01.bin", [0, 0, 128, 63])]
        [("hyperdrive_band01.bin", [0, 0, 128, 63])])) :=
  C3_overall_max [("hyperdrive_band01.bin", [0, 0, 128, 63])]
    [("hyperdrive_band01.bin", [0, 0, 128, 63])] ("./baseline")
    ["hyperdrive_band01.bin"] 0 (by rfl)

/-! ## Claim C2 -/

/-- Claim C2: for every run that reaches the final threshold check, the
process exits with code 0 exactly when the overall maximum does not compare
strictly greater than the tolerance (so exact equality succeeds: the
boundary is exclusive on the fail side); on breach it requests exit code
`-1`, which truncates to `255` modulo 256; and for a non-NaN tolerance
"not strictly greater" coincides with IEEE `≤` (the maximum itself is never
NaN). -/
theorem C2_exit_code (options : Opt) (w : World) (m : Nat)
    (hdir : w.baselineDirExists = true)
    (hfind : (glob_files w.cwdFiles).find?
        (fun p => !((glob_files w.baselineFiles).contains p)) = none)
    (hproc : processFiles w.cwdFiles w.baselineFiles options.baseline_dir
        (glob_files w.cwdFiles) none = .ok (some m)) :
    (main options w = .exitOk ↔ f32_gt m options.tolerance = false) ∧
    (f32_gt m options.tolerance = true → main options w = .exit (-1)) ∧
    ((-1 : Int) % 256 = 255) ∧
    (isNan options.tolerance = false →
      (f32_gt m options.tolerance = false ↔ f32_le m options.tolerance = true)) := by
  obtain ⟨hm, hmem, -⟩ := processFiles_max_none w.cwdFiles w.baselineFiles
    options.baseline_dir (glob_files w.cwdFiles) m hproc
  have hne : glob_files w.cwdFiles ≠ [] := by
    intro h0
    rw [h0] at hmem
    simp at hmem
  have hemp : (glob_files w.cwdFiles).isEmpty = false := by
    rcases hl : glob_files w.cwdFiles with _ | ⟨a, l⟩
    · exact absurd hl hne
    · rfl
  have hfind' : (glob_files w.cwdFiles).find?
      (fun p => !decide (p ∈ glob_files w.baselineFiles)) = none := by
    simpa using hfind
  have hmain : main options w =
      (if f32_gt m options.tolerance then .exit (-1) else .exitOk) := by
    simp [main, hdir, hemp, hfind', hproc]
  refine ⟨?_, ?_, by decide, ?_⟩
  · cases hgt : f32_gt m options.tolerance
    · rw [hmain, if_neg (by rw [hgt]; simp)]
      simp
    · rw [hmain, if_pos hgt]
      simp
  · intro hgt
    rw [hmain, if_pos hgt]
  · intro htol
    simp only [f32_gt, f32_lt, f32_le, htol, hm, Bool.or_false, Bool.or_self,
      Bool.not_false, Bool.true_and, decide_eq_false_iff_not, decide_eq_true_eq]
    exact Int.not_lt

/-- Witness for C2: a one-file run with zero difference and tolerance
`+0.0` succeeds (the boundary case "maximum equals tolerance"). -/
theorem C2_witness :
    main (Opt.mk ("./baseline") 0 false)
      (World.mk true [("hyperdrive_band01.bin", [0, 0, 128, 63])]
        [("hyperdrive_band01.bin", [0, 0, 128, 63])]) = .exitOk := by
  have h := C2_exit_code (Opt.mk ("./baseline") 0 false)
    (World.mk true [("hyperdrive_band01.bin", [0, 0, 128, 63])]
      [("hyperdrive_band01.bin", [0, 0, 128, 63])]) 0 rfl (by rfl) (by rfl)
  exact h.1.mpr (by decide)

/-! ## Claims C6, C7 and C8 -/

/-- Claim C6: if some present file has no same-named file in the baseline
enumeration (comparison is by exact file name, directory components
stripped by `glob_files`), the run fails with an error naming the missing
file.  The hypotheses constrain only the file names, never any file
contents, so the failure happens before any pair comparison is performed. -/
theorem C6_missing_baseline (options : Opt) (w : World)
    (hdir : w.baselineDirExists = true)
    (hmissing : ∃ p ∈ glob_files w.cwdFiles, p ∉ glob_files w.baselineFiles) :
    ∃ q ∈ glob_files w.cwdFiles, q ∉ glob_files w.baselineFiles ∧
      main options w = .error (missingMsg q options.baseline_dir) := by
  have hsome : ((glob_files w.cwdFiles).find?
      (fun p => !((glob_files w.baselineFiles).contains p))).isSome := by
    rw [List.find?_isSome]
    obtain ⟨p, hp, hnp⟩ := hmissing
    refine ⟨p, hp, ?_⟩
    simpa using hnp
  obtain ⟨q, hq⟩ := Option.isSome_iff_exists.mp hsome
  have hqmem := List.mem_of_find?_eq_some hq
  have hqprop := List.find?_some hq
  have hqnot : q ∉ glob_files w.baselineFiles := by simpa using hqprop
  refine ⟨q, hqmem, hqnot, ?_⟩
  have hne : glob_files w.cwdFiles ≠ [] := List.ne_nil_of_mem hqmem
  have hemp : (glob_files w.cwdFiles).isEmpty = false := by
    rcases hl : glob_files w.cwdFiles with _ | ⟨a, l⟩
    · exact absurd hl hne
    · rfl
  have hq' : (glob_files w.cwdFiles).find?
      (fun p => !decide (p ∈ glob_files w.baselineFiles)) = some q := by
    simpa using hq
  simp [main, hdir, hemp, hq']

/-- Witness for C6: a present `hyperdrive_band02.bin` with an empty baseline
directory fails with the "missing from" error. -/
theorem C6_witness :
    ∃ q ∈ glob_files [("hyperdrive_band02.bin", [0, 0, 128, 63])],
      q ∉ glob_files ([] : List (String × List Nat)) ∧
      main (Opt.mk ("./baseline") 0 false)
        (World.mk true [("hyperdrive_band02.bin", [0, 0, 128, 63])] []) =
        .error (missingMsg q ("./baseline")) :=
  C6_missing_baseline (Opt.mk ("./baseline") 0 false)
    (World.mk true [("hyperdrive_band02.bin", [0, 0, 128, 63])] [])
    rfl ⟨"hyperdrive_band02.bin", by decide, by decide⟩

/-- Claim C7: when the baseline directory does not exist, the program fails
immediately with a descriptive error, for any directory contents (no file
is enumerated or read). -/
theorem C7_no_baseline_dir (options : Opt) (w : World)
    (hdir : w.baselineDirExists = false) :
    main options w = .error (dirMsg options.baseline_dir) := by
  simp [main, hdir]

/-- Witness for C7. -/
theorem C7_witness :
    main (Opt.mk ("./baseline") 0 false) (World.mk false [] []) =
      .error (dirMsg ("./baseline")) :=
  C7_no_baseline_dir _ _ rfl

/-- Claim C8: when the working directory contains no file matching
`hyperdrive_band??.bin`, the program fails with an error rather than
proceeding, whatever the baseline contains. -/
theorem C8_no_present_files (options : Opt) (w : World)
    (hdir : w.baselineDirExists = true)
    (hglob : glob_files w.cwdFiles = []) :
    main options w = .error noFilesMsg := by
  simp [main, hdir, hglob]

/-- Witness for C8: a working directory with only a non-matching file. -/
theorem C8_witness :
    main (Opt.mk ("./baseline") 0 false)
      (World.mk true [("notes.txt", [1, 2, 3])] []) = .error noFilesMsg :=
  C8_no_present_files _ _ rfl (by decide)

end HyperdriveVisGenDiff
